import Mathlib

/-!
Verification of the Greaseweazle host-side control library
(`scripts/greaseweazle/usb.py` and `scripts/greaseweazle/tools/util.py`).

The Python source is shallowly embedded: bytes are modelled as `Nat`
(device bytes are always in `[0, 255]`; where a claim needs this it is a
hypothesis), Python lists as `List Nat`, and the fallible paths
(`assert`, `struct.unpack` on short reads, raised `CmdError`) as
`Option` / `Except` / explicit result types.  Serial I/O is modelled by
passing the byte streams and per-attempt outcomes explicitly.
-/

/-! ### Command and acknowledgement constants (usb.py, classes Cmd / Ack) -/

def Cmd.GetInfo : Nat := 0
def Cmd.Seek : Nat := 1
def Cmd.Side : Nat := 2
def Cmd.SetParams : Nat := 3
def Cmd.GetParams : Nat := 4
def Cmd.Motor : Nat := 5
def Cmd.ReadFlux : Nat := 6
def Cmd.WriteFlux : Nat := 7
def Cmd.GetFluxStatus : Nat := 8
def Cmd.GetIndexTimes : Nat := 9
def Cmd.Select : Nat := 10

def Ack.Okay : Nat := 0
def Ack.FluxOverflow : Nat := 4
def Ack.FluxUnderflow : Nat := 5
def Ack.Max : Nat := 6

/-! ### Flux codec (usb.py, `_decode_flux` / `_encode_flux`) -/

/-- The decode loop of `_decode_flux`: consume bytes one at a time,
appending decoded values to an accumulator (kept reversed).  A
`StopIteration` in the middle of a multi-byte group is caught by the
source's blanket `except StopIteration: pass`, so a truncated group is
abandoned and the values decoded so far are returned. -/
def decodeLoop : List Nat → List Nat → List Nat
  | [], acc => acc.reverse
  | i :: rest, acc =>
    if i < 250 then decodeLoop rest (i :: acc)
    else if i = 255 then
      match rest with
      | b1 :: b2 :: b3 :: b4 :: rest2 =>
        decodeLoop rest2
          ((((b1 &&& 254) >>> 1) + ((b2 &&& 254) <<< 6) +
            ((b3 &&& 254) <<< 13) + ((b4 &&& 254) <<< 20)) :: acc)
      | _ => acc.reverse
    else
      match rest with
      | low :: rest2 => decodeLoop rest2 (((i - 249) * 250 + low - 1) :: acc)
      | [] => acc.reverse

/-- `_decode_flux`: run the decode loop, then `assert flux[-1] == 0` and
drop that trailing zero.  `none` models the assertion failure (also the
`IndexError` on an empty result). -/
def _decode_flux (dat : List Nat) : Option (List Nat) :=
  let flux := decodeLoop dat []
  match flux.getLast? with
  | some 0 => some flux.dropLast
  | _ => none

/-- Encoding of a single value inside `_encode_flux`'s loop body. -/
def encodeVal (val : Nat) : List Nat :=
  if val = 0 then []
  else if val < 250 then [val]
  else
    let high := val / 250
    if high ≤ 5 then [249 + high, 1 + val % 250]
    else [255,
          1 ||| ((val <<< 1) &&& 255),
          1 ||| ((val >>> 6) &&& 255),
          1 ||| ((val >>> 13) &&& 255),
          1 ||| ((val >>> 20) &&& 255)]

/-- `_encode_flux`: encode each value in turn, then append the
end-of-stream terminator byte `0`. -/
def _encode_flux : List Nat → List Nat
  | [] => [0]
  | v :: rest => encodeVal v ++ _encode_flux rest

/-! ### Read-track pipeline: decode, then clip the leading partial
revolution (usb.py, `read_track` lines 250-267) -/

/-- The flux record returned by `read_track`
(`Flux(index_list, flux_list, sample_freq)` from greaseweazle/flux.py,
used as a plain data carrier). -/
structure Flux where
  index_list : List Nat
  flux_list : List Nat
  sample_freq : Nat
deriving DecidableEq, Repr

/-- The clipping loop of `read_track`: subtract each interval from
`to_index`; at the first position where the running value goes negative,
replace that interval by the residual `-to_index` and drop everything
before it.  Exhausting the list with `to_index` still non-negative
yields the empty list ("we ran out of flux"). -/
def clipFlux : Int → List Nat → List Nat
  | _, [] => []
  | t, f :: rest =>
    if t - (f : Int) < 0 then (-(t - (f : Int))).toNat :: rest
    else clipFlux (t - (f : Int)) rest

/-- `read_track` after a successful flux exchange: decode the raw
stream, clip against the first index time, drop that index time, and
return the flux record.  `none` models the decode assertion failure and
the `IndexError` on an empty index list. -/
def read_track (dat : List Nat) (index_list : List Nat) (sample_freq : Nat) : Option Flux :=
  match _decode_flux dat, index_list with
  | some flux_list, i0 :: rest =>
    some { index_list := rest, flux_list := clipFlux (i0 : Int) flux_list,
           sample_freq := sample_freq }
  | _, _ => none

/-! ### Retry discipline (usb.py, `read_track` lines 233-247 and
`write_track` lines 272-293) -/

/-- The `while True` retry loop of `read_track`.  Attempt `retry` of the
`ReadFlux`/`GetFluxStatus` exchange (`_read_track`) either succeeds with
a byte buffer or raises a `CmdError` code, modelled by `att retry`.  The
loop retries only on `Ack.FluxOverflow` while `retry < nr_retries`.  The
fuel starts at `nr_retries + 1`, which the loop structure can never
exhaust (each iteration past the first consumes one allowed retry). -/
def readRetryGo (att : Nat → Except Nat (List Nat)) (nr_retries : Nat) :
    Nat → Nat → Except Nat (List Nat)
  | _, 0 => Except.error 0
  | retry, fuel + 1 =>
    match att retry with
    | Except.ok dat => Except.ok dat
    | Except.error code =>
      if code = Ack.FluxOverflow ∧ retry < nr_retries then
        readRetryGo att nr_retries (retry + 1) fuel
      else Except.error code

/-- The retrying part of `read_track`: start with `retry = 0`. -/
def read_track_retry (att : Nat → Except Nat (List Nat)) (nr_retries : Nat) :
    Except Nat (List Nat) :=
  readRetryGo att nr_retries 0 (nr_retries + 1)

/-- The `while True` retry loop of `write_track`, after `dat` has been
encoded once.  `code_at retry` is the `CmdError` code raised during
attempt `retry` (`none` = attempt succeeded).  Alongside the loop result
we record the payload streamed by each attempt, to witness that every
attempt re-uses the same encoded `dat`. -/
def writeRetryGo (code_at : Nat → Option Nat) (nr_retries : Nat) (dat : List Nat) :
    Nat → Nat → Except Nat Unit × List (List Nat)
  | _, 0 => (Except.error 0, [])
  | retry, fuel + 1 =>
    match code_at retry with
    | none => (Except.ok (), [dat])
    | some code =>
      if code = Ack.FluxUnderflow ∧ retry < nr_retries then
        let r := writeRetryGo code_at nr_retries dat (retry + 1) fuel
        (r.1, dat :: r.2)
      else (Except.error code, [dat])

/-- `write_track`: encode the flux list exactly once, before the retry
loop, then run the loop. -/
def write_track (code_at : Nat → Option Nat) (flux_list : List Nat) (nr_retries : Nat) :
    Except Nat Unit × List (List Nat) :=
  let dat := _encode_flux flux_list
  writeRetryGo code_at nr_retries dat 0 (nr_retries + 1)

/-! ### Frame layer (usb.py, `_send_cmd` lines 118-123 and
`CmdError.__str__` lines 62-65) -/

inductive SendResult
  | ok
  | protocolError
  | cmdError (cmd : Nat) (code : Nat)
deriving DecidableEq, Repr

/-- `_send_cmd`: write the frame, read exactly two acknowledgement bytes
from the serial stream, `assert c == cmd[0]`, raise `CmdError(c, r)` on a
non-zero second byte.  The returned list is what is left of the serial
stream; `protocolError` models the assertion failure (and the
`struct.unpack` failure when fewer than two bytes are available). -/
def _send_cmd (cmd : List Nat) (ser : List Nat) : SendResult × List Nat :=
  match ser with
  | c :: r :: rest =>
    if c ≠ cmd.headI then (SendResult.protocolError, rest)
    else if r ≠ 0 then (SendResult.cmdError c r, rest)
    else (SendResult.ok, rest)
  | _ => (SendResult.protocolError, [])

/-- The `CmdError.str` table of acknowledgement messages. -/
def CmdError.str : List String :=
  ["Okay", "Bad Command", "No Index", "Track 0 not found",
   "Flux Overflow", "Flux Underflow", "Disk is Write Protected"]

/-- `CmdError.__str__`: table lookup for codes up to `Ack.Max`,
"Unknown Error (n)" beyond. -/
def CmdError.render (code : Nat) : String :=
  if code ≤ Ack.Max then CmdError.str.getD code ""
  else "Unknown Error (" ++ Nat.repr code ++ ")"

/-! ### Unit session construction (usb.py, `Unit.__init__` lines 78-103) -/

/-- The session state built by `Unit.__init__`.  Fields the constructor
deletes (`del self.max_index`, `del self.sample_freq`) or never assigns
(`update_jumpered`, `update_needed`, the delay block) are `Option`s:
`none` means the attribute is absent, so that reading it is an error. -/
structure GWUnit where
  major : Nat
  minor : Nat
  max_cmd : Nat
  update_mode : Bool
  update_jumpered : Option Nat
  max_index : Option Nat
  sample_freq : Option Nat
  update_needed : Option Bool
  delays : Option (Nat × Nat × Nat × Nat × Nat)
deriving DecidableEq, Repr

/-- `Unit.__init__` after the `GetInfo` response has been parsed into
`(major, minor, max_index, max_cmd, sample_freq)`.  The second component
is the list of command bytes issued (`GetInfo`, then `GetParams` only
when the firmware is current and not in update mode).  `host_major` and
`host_minor` are the host tools' expected version. -/
def unit_init (host_major host_minor : Nat)
    (major minor max_index max_cmd sample_freq : Nat)
    (delay_resp : Nat × Nat × Nat × Nat × Nat) : GWUnit × List Nat :=
  if max_index = 0 then
    (⟨major, minor, max_cmd, true, some (sample_freq &&& 1), none, none, none, none⟩,
     [Cmd.GetInfo])
  else if major ≠ host_major ∨ minor ≠ host_minor then
    (⟨major, minor, max_cmd, false, none, some max_index, some sample_freq, some true,
      none⟩, [Cmd.GetInfo])
  else
    (⟨major, minor, max_cmd, false, none, some max_index, some sample_freq, some false,
      some delay_resp⟩, [Cmd.GetInfo, Cmd.GetParams])

/-! ### Scoped drive select / motor (tools/util.py, `with_drive_selected`) -/

/-- Exceptions visible to `with_drive_selected`: a propagated error from
the wrapped function (e.g. a `CmdError`) or `KeyboardInterrupt`. -/
inductive Exc
  | cmdError
  | interrupt
deriving DecidableEq, Repr

/-- The observable device/serial actions of `with_drive_selected`. -/
inductive DriveAction
  | select (state : Bool)
  | motor (state : Bool)
  | callFn
  | printNL
  | reset
  | closeSer
  | openSer
deriving DecidableEq, Repr

/-- `with_drive_selected fn usb args`: `try` select/motor/fn,
`except KeyboardInterrupt` print/reset/close/open (swallowing the
interrupt), `finally` motor off then select off.  `fnExc` is the
exception the body raises, if any; the result is the trace of actions
and the exception propagated to the caller. -/
def with_drive_selected (fnExc : Option Exc) : List DriveAction × Option Exc :=
  let bodyTrace := [DriveAction.select true, DriveAction.motor true, DriveAction.callFn]
  let handled :=
    match fnExc with
    | some Exc.interrupt =>
      (bodyTrace ++ [DriveAction.printNL, DriveAction.reset, DriveAction.closeSer, DriveAction.openSer],
       none)
    | e => (bodyTrace, e)
  (handled.1 ++ [DriveAction.motor false, DriveAction.select false], handled.2)

/-! ### Lemmas and verified claims -/

/-! ### Arithmetic value of the bit-stuffed five-byte group -/

/-- One stuffed byte, as the decoder sees it: setting the stuffing bit
and then masking it off again leaves the seven payload bits. -/
lemma stuffByte (x : Nat) : (1 ||| (x &&& 255)) &&& 254 = x / 2 % 128 * 2 := by
  have h255 : x &&& 255 = x % 256 := by
    have h := Nat.and_pow_two_sub_one_eq_mod x 8
    norm_num at h
    exact h
  rw [h255]
  have hmod : ((1 ||| x % 256) &&& 254) % 2 = 0 := by
    have h := @Nat.and_mod_two_eq_one (1 ||| x % 256) 254
    have h254 : (254 : Nat) % 2 = 0 := by norm_num
    rcases Nat.mod_two_eq_zero_or_one ((1 ||| x % 256) &&& 254) with h0 | h1
    · exact h0
    · exact absurd (h.mp h1).2 (by omega)
  have hdiv : ((1 ||| x % 256) &&& 254) / 2 = x % 256 / 2 % 128 := by
    rw [Nat.and_div_two, Nat.or_div_two]
    norm_num
    have h := Nat.and_pow_two_sub_one_eq_mod (x % 256 / 2) 7
    norm_num at h
    exact h
  have hsplit := Nat.div_add_mod ((1 ||| x % 256) &&& 254) 2
  omega

/-- The value reassembled by the decoder's five-byte branch from the
four stuffed bytes the encoder emits is `v` reduced modulo `2^28`. -/
lemma fiveByteVal (v : Nat) :
    (((1 ||| ((v <<< 1) &&& 255)) &&& 254) >>> 1) +
      (((1 ||| ((v >>> 6) &&& 255)) &&& 254) <<< 6) +
      (((1 ||| ((v >>> 13) &&& 255)) &&& 254) <<< 13) +
      (((1 ||| ((v >>> 20) &&& 255)) &&& 254) <<< 20) = v % 268435456 := by
  rw [stuffByte, stuffByte, stuffByte, stuffByte]
  rw [Nat.shiftLeft_eq, Nat.shiftLeft_eq, Nat.shiftLeft_eq, Nat.shiftLeft_eq,
      Nat.shiftRight_eq_div_pow, Nat.shiftRight_eq_div_pow,
      Nat.shiftRight_eq_div_pow, Nat.shiftRight_eq_div_pow]
  norm_num
  omega

/-! ### Codec round-trip -/

lemma decodeLoop_lt (i : Nat) (rest acc : List Nat) (h : i < 250) :
    decodeLoop (i :: rest) acc = decodeLoop rest (i :: acc) := by
  rw [decodeLoop.eq_def]
  simp [h]

lemma decodeLoop_two (i low : Nat) (rest acc : List Nat) (h1 : ¬ i < 250) (h2 : i ≠ 255) :
    decodeLoop (i :: low :: rest) acc =
      decodeLoop rest (((i - 249) * 250 + low - 1) :: acc) := by
  rw [decodeLoop.eq_def]
  simp [h1, h2]

lemma decodeLoop_five (b1 b2 b3 b4 : Nat) (rest acc : List Nat) :
    decodeLoop (255 :: b1 :: b2 :: b3 :: b4 :: rest) acc =
      decodeLoop rest
        ((((b1 &&& 254) >>> 1) + ((b2 &&& 254) <<< 6) +
          ((b3 &&& 254) <<< 13) + ((b4 &&& 254) <<< 20)) :: acc) := by
  rw [decodeLoop.eq_def]
  norm_num

/-- Decoding the encoding of one value pushes `v % 2^28` (or nothing for
`v = 0`) and continues with the rest of the stream. -/
lemma decodeLoop_encodeVal (v : Nat) (rest acc : List Nat) :
    decodeLoop (encodeVal v ++ rest) acc =
      decodeLoop rest (if v = 0 then acc else (v % 268435456) :: acc) := by
  by_cases h0 : v = 0
  · simp [encodeVal, h0]
  · by_cases hsmall : v < 250
    · have hmod : v % 268435456 = v := Nat.mod_eq_of_lt (by omega)
      simp only [encodeVal, h0, hsmall, if_false, if_true, hmod, List.cons_append,
        List.nil_append]
      rw [decodeLoop_lt v rest acc hsmall]
    · by_cases hmid : v / 250 ≤ 5
      · have h1 : ¬ (249 + v / 250 < 250) := by omega
        have h2 : 249 + v / 250 ≠ 255 := by omega
        have hval : (249 + v / 250 - 249) * 250 + (1 + v % 250) - 1 = v := by
          have := Nat.div_add_mod v 250
          omega
        have hmod : v % 268435456 = v := by
          have h3 : v = 250 * (v / 250) + v % 250 := (Nat.div_add_mod v 250).symm
          have h4 : v < 268435456 := by omega
          exact Nat.mod_eq_of_lt h4
        simp only [encodeVal, h0, hsmall, hmid, if_false, if_true, List.cons_append,
          List.nil_append]
        rw [decodeLoop_two _ _ _ _ h1 h2, hval, hmod]
      · simp only [encodeVal, h0, hsmall, hmid, if_false, if_true, List.cons_append,
          List.nil_append]
        rw [decodeLoop_five, fiveByteVal]

/-- Decoding an encoded stream: each non-zero input value contributes its
residue modulo `2^28`, zeros are elided, and the terminator decodes to a
final `0` value. -/
lemma decodeLoop_encode (xs : List Nat) : ∀ acc : List Nat,
    decodeLoop (_encode_flux xs) acc =
      acc.reverse ++ (xs.filter (fun v => v != 0)).map (fun v => v % 268435456) ++ [0] := by
  induction xs with
  | nil =>
    intro acc
    rw [_encode_flux, decodeLoop_lt 0 [] acc (by omega), decodeLoop]
    simp
  | cons v t ih =>
    intro acc
    rw [_encode_flux, decodeLoop_encodeVal, ih]
    by_cases h0 : v = 0
    · simp [h0]
    · simp [h0]

/-- Full round-trip through the codec, for arbitrary `Nat` inputs. -/
lemma decode_encode (xs : List Nat) :
    _decode_flux (_encode_flux xs) =
      some ((xs.filter (fun v => v != 0)).map (fun v => v % 268435456)) := by
  rw [_decode_flux, decodeLoop_encode xs []]
  simp

lemma filter_ne_zero_of_pos (xs : List Nat) (h : ∀ v ∈ xs, 1 ≤ v) :
    xs.filter (fun v => v != 0) = xs := by
  induction xs with
  | nil => simp
  | cons v t ih =>
    have hv : 1 ≤ v := h v (by simp)
    have ht : ∀ u ∈ t, 1 ≤ u := fun u hu => h u (by simp [hu])
    have hne : v ≠ 0 := by omega
    simp [List.filter_cons, hne, ih ht]

lemma map_mod_eq_self (xs : List Nat) (h : ∀ v ∈ xs, v < 268435456) :
    xs.map (fun v => v % 268435456) = xs := by
  induction xs with
  | nil => simp
  | cons v t ih =>
    have hv : v < 268435456 := h v (by simp)
    have ht : ∀ u ∈ t, u < 268435456 := fun u hu => h u (by simp [hu])
    simp [Nat.mod_eq_of_lt hv, ih ht]

/-- Claim C1. Codec round-trip: for a sequence whose values all lie in
`[1, 2^28 - 1]`, decoding the stream produced by `_encode_flux` yields
the sequence exactly; for a sequence whose values lie in `[0, 2^28 - 1]`,
it yields the sequence with all zeros removed. -/
theorem encode_decode_roundtrip :
    (∀ xs : List Nat, (∀ v ∈ xs, 1 ≤ v ∧ v ≤ 2 ^ 28 - 1) →
        _decode_flux (_encode_flux xs) = some xs) ∧
    (∀ xs : List Nat, (∀ v ∈ xs, v ≤ 2 ^ 28 - 1) →
        _decode_flux (_encode_flux xs) =
          some (xs.filter (fun v => v != 0))) := by
  have key : ∀ xs : List Nat, (∀ v ∈ xs, v ≤ 2 ^ 28 - 1) →
      _decode_flux (_encode_flux xs) = some (xs.filter (fun v => v != 0)) := by
    intro xs h
    rw [decode_encode]
    have hlt : ∀ v ∈ xs.filter (fun v => v != 0), v < 268435456 := by
      intro v hv
      have hm := List.mem_of_mem_filter hv
      have := h v hm
      norm_num at this
      omega
    rw [map_mod_eq_self _ hlt]
  refine ⟨fun xs h => ?_, key⟩
  rw [key xs (fun v hv => (h v hv).2)]
  rw [filter_ne_zero_of_pos xs (fun v hv => (h v hv).1)]

theorem encode_decode_roundtrip_witness :
    _decode_flux (_encode_flux [1, 249, 250, 1499, 1500, 268435455]) =
      some [1, 249, 250, 1499, 1500, 268435455] ∧
    _decode_flux (_encode_flux [5, 0, 300, 0]) =
      some (List.filter (fun v => v != 0) [5, 0, 300, 0]) :=
  ⟨encode_decode_roundtrip.1 _ (by decide), encode_decode_roundtrip.2 _ (by decide)⟩

/-- Claim C10. Inputs `v ≥ 2^28` are not rejected by `_encode_flux`: a
five-byte group is emitted that keeps only the low 28 bits of `v`, so the
round trip yields `v % 2^28`. -/
theorem encode_flux_overflow_mod : ∀ v : Nat, 2 ^ 28 ≤ v →
    (encodeVal v).length = 5 ∧ (encodeVal v).headI = 255 ∧
    _decode_flux (_encode_flux [v]) = some [v % 2 ^ 28] := by
  intro v hv
  have h28 : (268435456 : Nat) = 2 ^ 28 := by norm_num
  have h0 : v ≠ 0 := by omega
  have hsmall : ¬ v < 250 := by omega
  have hmid : ¬ v / 250 ≤ 5 := by omega
  refine ⟨?_, ?_, ?_⟩
  · simp [encodeVal, h0, hsmall, hmid]
  · simp [encodeVal, h0, hsmall, hmid]
  · rw [decode_encode]
    simp [h0, h28]

theorem encode_flux_overflow_mod_witness :
    (encodeVal 268435456).length = 5 ∧ (encodeVal 268435456).headI = 255 ∧
    _decode_flux (_encode_flux [268435456]) = some [268435456 % 2 ^ 28] :=
  encode_flux_overflow_mod 268435456 (by norm_num)

/-- Claim C4 counterexample. For `v = 1500` (so `v div 250 = 6 > 5`) the
code emits `[255, 185, 23, 1, 1]`, but the spec's stated five bytes
`255, 1 | ((v >> k) << 1) & 0xFF` (k = 0, 6, 13, 20) would be
`[255, 185, 47, 1, 1]`: the code does not left-shift the payload of the
second, third and fourth stuffed bytes. -/
theorem five_byte_encode_counterexample :
    encodeVal 1500 = [255, 185, 23, 1, 1] ∧
    [255,
     1 ||| (((1500 >>> 0) <<< 1) &&& 255),
     1 ||| (((1500 >>> 6) <<< 1) &&& 255),
     1 ||| (((1500 >>> 13) <<< 1) &&& 255),
     1 ||| (((1500 >>> 20) <<< 1) &&& 255)] = [255, 185, 47, 1, 1] ∧
    encodeVal 1500 ≠
      [255,
       1 ||| (((1500 >>> 0) <<< 1) &&& 255),
       1 ||| (((1500 >>> 6) <<< 1) &&& 255),
       1 ||| (((1500 >>> 13) <<< 1) &&& 255),
       1 ||| (((1500 >>> 20) <<< 1) &&& 255)] := by
  refine ⟨by decide, by decide, by decide⟩

/-- Claim C4, amended. For every value `v` with `v div 250 > 5`,
`_encode_flux` emits for `v` exactly the five bytes
`255`, `1 | (v << 1) & 0xFF`, `1 | (v >> 6) & 0xFF`,
`1 | (v >> 13) & 0xFF`, `1 | (v >> 20) & 0xFF`
(the first stuffed byte shifts the value left by one; the remaining
three use the plain shifted value, without a further `<< 1`). -/
theorem five_byte_encode_amended : ∀ v : Nat, 5 < v / 250 →
    encodeVal v =
      [255,
       1 ||| ((v <<< 1) &&& 255),
       1 ||| ((v >>> 6) &&& 255),
       1 ||| ((v >>> 13) &&& 255),
       1 ||| ((v >>> 20) &&& 255)] ∧
    _encode_flux [v] =
      [255,
       1 ||| ((v <<< 1) &&& 255),
       1 ||| ((v >>> 6) &&& 255),
       1 ||| ((v >>> 13) &&& 255),
       1 ||| ((v >>> 20) &&& 255), 0] := by
  intro v hv
  have h0 : v ≠ 0 := by omega
  have hsmall : ¬ v < 250 := by omega
  have hmid : ¬ v / 250 ≤ 5 := by omega
  constructor
  · simp [encodeVal, h0, hsmall, hmid]
  · rw [_encode_flux, _encode_flux]
    simp [encodeVal, h0, hsmall, hmid]

theorem five_byte_encode_amended_witness :
    encodeVal 1500 =
      [255,
       1 ||| ((1500 <<< 1) &&& 255),
       1 ||| ((1500 >>> 6) &&& 255),
       1 ||| ((1500 >>> 13) &&& 255),
       1 ||| ((1500 >>> 20) &&& 255)] ∧
    _encode_flux [1500] =
      [255,
       1 ||| ((1500 <<< 1) &&& 255),
       1 ||| ((1500 >>> 6) &&& 255),
       1 ||| ((1500 >>> 13) &&& 255),
       1 ||| ((1500 >>> 20) &&& 255), 0] :=
  five_byte_encode_amended 1500 (by decide)

/-- If the sum of the whole flux list never exceeds `to_index`, the clip
loop exhausts the list and returns the empty list. -/
lemma clipFlux_exhaust : ∀ (F : List Nat) (t : Int), (F.sum : Int) ≤ t → clipFlux t F = [] := by
  intro F
  induction F with
  | nil => intro t _; rfl
  | cons f rest ih =>
    intro t ht
    have hsum : ((f :: rest).sum : Int) = (f : Int) + (rest.sum : Int) := by
      push_cast [List.sum_cons]
      ring
    rw [clipFlux]
    have hge : ¬ t - (f : Int) < 0 := by
      have hnn : (0 : Int) ≤ (rest.sum : Int) := by positivity
      omega
    rw [if_neg hge]
    exact ih (t - (f : Int)) (by omega)

/-- If position `i` is the first whose running prefix sum exceeds
`to_index`, the clip loop replaces `F[i]` by the residual and drops the
elements before it. -/
lemma clipFlux_at : ∀ (i : Nat) (F : List Nat) (t : Int),
    i < F.length →
    ((F.take i).sum : Int) ≤ t →
    t < ((F.take (i + 1)).sum : Int) →
    clipFlux t F = (((F.take (i + 1)).sum : Int) - t).toNat :: F.drop (i + 1) := by
  intro i
  induction i with
  | zero =>
    intro F t hlen h1 h2
    match F with
    | [] => simp at hlen
    | f :: rest =>
      simp only [List.take, List.sum_cons, List.sum_nil] at h2
      rw [clipFlux]
      have hlt : t - (f : Int) < 0 := by push_cast at h2 ⊢; omega
      rw [if_pos hlt]
      simp only [List.take, List.sum_cons, List.sum_nil, List.drop]
      congr 1
      push_cast
      omega
  | succ j ih =>
    intro F t hlen h1 h2
    match F with
    | [] => simp at hlen
    | f :: rest =>
      simp only [List.take, List.sum_cons] at h1 h2
      rw [clipFlux]
      have hge : ¬ t - (f : Int) < 0 := by
        have hnn : (0 : Int) ≤ ((rest.take j).sum : Int) := by positivity
        push_cast at h1 hnn
        omega
      rw [if_neg hge]
      have hlen2 : j < rest.length := by simpa using hlen
      have h1a : ((rest.take j).sum : Int) ≤ t - (f : Int) := by push_cast at h1 ⊢; omega
      have h2a : t - (f : Int) < ((rest.take (j + 1)).sum : Int) := by push_cast at h2 ⊢; omega
      rw [ih rest (t - (f : Int)) hlen2 h1a h2a]
      simp only [List.take, List.sum_cons, List.drop]
      congr 1
      push_cast
      omega

/-- Claim C2. The clipping step of `read_track`: with `to_index` the
first index time, walking the decoded flux list and subtracting each
interval, the first interval that takes the running value negative is
replaced by the residual `-to_index` and everything before it dropped;
exhausting the list yields an empty flux list; and on the spec's
concrete example the returned record is `([500], [30, 200])`. -/
theorem read_track_clip_spec :
    (∀ (t : Int) (F : List Nat), (F.sum : Int) ≤ t → clipFlux t F = []) ∧
    (∀ (i : Nat) (F : List Nat) (t : Int), i < F.length →
        ((F.take i).sum : Int) ≤ t → t < ((F.take (i + 1)).sum : Int) →
        clipFlux t F = (((F.take (i + 1)).sum : Int) - t).toNat :: F.drop (i + 1)) ∧
    (∀ (dat : List Nat) (i0 : Nat) (rest : List Nat) (sf : Nat) (fl : List Nat),
        _decode_flux dat = some fl →
        read_track dat (i0 :: rest) sf =
          some { index_list := rest, flux_list := clipFlux (i0 : Int) fl,
                 sample_freq := sf }) ∧
    read_track [100, 50, 200, 0] [120, 500] 72000000 =
      some { index_list := [500], flux_list := [30, 200], sample_freq := 72000000 } := by
  refine ⟨fun t F h => clipFlux_exhaust F t h, clipFlux_at, ?_, by decide⟩
  intro dat i0 rest sf fl hfl
  simp [read_track, hfl]

theorem read_track_clip_spec_witness :
    clipFlux 120 [100, 50, 200] =
      ((((List.take 2 [100, 50, 200]).sum : Nat) : Int) - 120).toNat ::
        List.drop 2 [100, 50, 200] ∧
    clipFlux 1000 [100, 50, 200] = [] ∧
    read_track [100, 50, 200, 0] [77, 444] 9 =
      some { index_list := [444], flux_list := clipFlux (77 : Int) [100, 50, 200],
             sample_freq := 9 } :=
  ⟨read_track_clip_spec.2.1 1 [100, 50, 200] 120 (by decide) (by decide) (by decide),
   read_track_clip_spec.1 1000 [100, 50, 200] (by decide),
   read_track_clip_spec.2.2.1 [100, 50, 200, 0] 77 [444] 9 [100, 50, 200] (by decide)⟩

/-- Claim C7 counterexample. A five-byte group whose stuffed bytes carry
no payload bits (`255, 1, 1, 1, 1`) decodes to the value `0`, so a byte
stream accepted by the read pipeline can put a `0` into the flux list
returned by `read_track`: the spec's invariant "every value in
`flux_list` is ≥ 1" does not hold of the code. -/
theorem flux_list_positive_counterexample :
    _decode_flux [100, 255, 1, 1, 1, 1, 50, 0] = some [100, 0, 50] ∧
    (read_track [100, 255, 1, 1, 1, 1, 50, 0] [50, 500] 72000000).map Flux.flux_list =
      some [50, 0, 50] ∧
    (0 : Nat) ∈ [50, 0, 50] := by
  refine ⟨by decide, by decide, by decide⟩

/-- Every element the clip loop returns is positive provided the decoded
list's elements are. -/
lemma clipFlux_pos : ∀ (F : List Nat) (t : Int), (∀ v ∈ F, 1 ≤ v) →
    ∀ v ∈ clipFlux t F, 1 ≤ v := by
  intro F
  induction F with
  | nil =>
    intro t _ v hv
    rw [clipFlux] at hv
    simp at hv
  | cons f rest ih =>
    intro t hF v hv
    rw [clipFlux] at hv
    by_cases hlt : t - (f : Int) < 0
    · rw [if_pos hlt] at hv
      rcases List.mem_cons.mp hv with h | h
      · subst h
        omega
      · exact hF v (List.mem_cons_of_mem f h)
    · rw [if_neg hlt] at hv
      exact ih (t - (f : Int)) (fun u hu => hF u (List.mem_cons_of_mem f hu)) v hv

/-- Claim C7, amended. For byte streams produced by `_encode_flux` from
values below `2^28`, every element of the flux list returned by
`read_track` is ≥ 1.  (In general the invariant fails: a five-byte group
can decode to `0`, see the counterexample.) -/
theorem flux_list_positive_amended : ∀ xs : List Nat, (∀ v ∈ xs, v < 2 ^ 28) →
    ∀ (i0 : Nat) (rest : List Nat) (sf : Nat) (rec : Flux),
      read_track (_encode_flux xs) (i0 :: rest) sf = some rec →
      ∀ v ∈ rec.flux_list, 1 ≤ v := by
  intro xs hxs i0 rest sf rec hrt v hv
  have hd := decode_encode xs
  have hmap : (xs.filter (fun v => v != 0)).map (fun v => v % 268435456) =
      xs.filter (fun v => v != 0) := by
    refine map_mod_eq_self _ (fun u hu => ?_)
    have := hxs u (List.mem_of_mem_filter hu)
    norm_num at this ⊢
    omega
  rw [hmap] at hd
  rw [read_track.eq_def, hd] at hrt
  simp only [Option.some.injEq] at hrt
  subst hrt
  refine clipFlux_pos _ _ (fun u hu => ?_) v hv
  have := (List.mem_filter.mp hu).2
  simp at this
  omega

theorem flux_list_positive_amended_witness :
    read_track (_encode_flux [100, 50, 200]) [120, 500] 72000000 =
      some { index_list := [500], flux_list := [30, 200], sample_freq := 72000000 } ∧
    (1 : Nat) ≤ 30 :=
  ⟨by decide,
   flux_list_positive_amended [100, 50, 200] (by decide) 120 [500] 72000000
     { index_list := [500], flux_list := [30, 200], sample_freq := 72000000 }
     (by decide) 30 (by decide)⟩

/-- Claim C8 counterexample. `[100, 0, 250]` lacks the end-of-stream
sentinel as its final byte and ends in a truncated two-byte group, yet
`_decode_flux` does not raise: the truncated group is silently dropped
and `[100]` is returned, because the assertion only inspects the last
completely decoded value (here the `0` byte at index 1). -/
theorem decode_error_counterexample :
    _decode_flux [100, 0, 250] = some [100] ∧
    [100, 0, 250].getLast? ≠ some 0 := by
  refine ⟨by decide, by decide⟩

/-- Claim C8, amended. `_decode_flux` raises exactly when the sequence
of completely decoded values is empty or does not end in the value `0`;
a trailing truncated group contributes no value and is silently dropped,
so a missing sentinel goes undetected whenever the last complete value
is `0`. -/
theorem decode_error_amended : ∀ dat : List Nat,
    (_decode_flux dat = none ↔ (decodeLoop dat []).getLast? ≠ some 0) ∧
    (∀ out : List Nat, _decode_flux dat = some out ↔ decodeLoop dat [] = out ++ [0]) := by
  intro dat
  rcases h : (decodeLoop dat []).getLast? with _ | a
  · have hnil : decodeLoop dat [] = [] := List.getLast?_eq_none_iff.mp h
    refine ⟨by simp [_decode_flux, h], fun out => ?_⟩
    simp [_decode_flux, h, hnil]
  · match a with
    | 0 =>
      obtain ⟨ys, hys⟩ := List.getLast?_eq_some_iff.mp h
      refine ⟨by simp [_decode_flux, h], fun out => ?_⟩
      simp [_decode_flux, h, hys]
    | n + 1 =>
      refine ⟨by simp [_decode_flux, h], fun out => ?_⟩
      simp only [_decode_flux, h]
      constructor
      · intro hfalse
        exact absurd hfalse (by simp)
      · intro hl
        rw [hl] at h
        simp [List.getLast?_concat] at h

theorem decode_error_amended_witness :
    (_decode_flux [100, 0, 250] = some [100] ↔
      decodeLoop [100, 0, 250] [] = [100] ++ [0]) ∧
    decodeLoop [100, 0, 250] [] = [100, 0] :=
  ⟨(decode_error_amended [100, 0, 250]).2 [100], by decide⟩

lemma readRetryGo_ok (att : Nat → Except Nat (List Nat)) (nr_retries : Nat) (d : List Nat) :
    ∀ (n retry fuel : Nat), (∀ m, m < n → att (retry + m) = Except.error Ack.FluxOverflow) →
      retry + n ≤ nr_retries → n < fuel → att (retry + n) = Except.ok d →
      readRetryGo att nr_retries retry fuel = Except.ok d := by
  intro n
  induction n with
  | zero =>
    intro retry fuel _ _ hfuel hok
    match fuel, hfuel with
    | fuel + 1, _ =>
      rw [readRetryGo]
      simp only [Nat.add_zero] at hok
      rw [hok]
  | succ j ih =>
    intro retry fuel hall hle hfuel hok
    match fuel, hfuel with
    | fuel + 1, hfuel =>
      have h0 : att retry = Except.error Ack.FluxOverflow := by
        have h := hall 0 (by omega)
        simpa using h
      have hlt : retry < nr_retries := by omega
      rw [readRetryGo, h0]
      simp only [hlt, and_true, if_true]
      refine ih (retry + 1) fuel (fun m hm => ?_) (by omega) (by omega) ?_
      · have h := hall (m + 1) (by omega)
        rw [← h]
        congr 1
        omega
      · rw [← hok]
        congr 1
        omega

lemma readRetryGo_err (att : Nat → Except Nat (List Nat)) (nr_retries : Nat) (c : Nat) :
    ∀ (n retry fuel : Nat), (∀ m, m < n → att (retry + m) = Except.error Ack.FluxOverflow) →
      retry + n ≤ nr_retries → n < fuel → att (retry + n) = Except.error c →
      (c ≠ Ack.FluxOverflow ∨ retry + n = nr_retries) →
      readRetryGo att nr_retries retry fuel = Except.error c := by
  intro n
  induction n with
  | zero =>
    intro retry fuel _ _ hfuel herr hstop
    match fuel, hfuel with
    | fuel + 1, _ =>
      rw [readRetryGo]
      simp only [Nat.add_zero] at herr hstop
      rw [herr]
      have hcond : ¬ (c = Ack.FluxOverflow ∧ retry < nr_retries) := by
        rcases hstop with h | h
        · exact fun hc => h hc.1
        · exact fun hc => by omega
      simp only [hcond, if_false, if_neg hcond]
  | succ j ih =>
    intro retry fuel hall hle hfuel herr hstop
    match fuel, hfuel with
    | fuel + 1, hfuel =>
      have h0 : att retry = Except.error Ack.FluxOverflow := by
        have h := hall 0 (by omega)
        simpa using h
      have hlt : retry < nr_retries := by omega
      rw [readRetryGo, h0]
      simp only [hlt, and_true, if_true]
      refine ih (retry + 1) fuel (fun m hm => ?_) (by omega) (by omega) ?_ ?_
      · have h := hall (m + 1) (by omega)
        rw [← h]
        congr 1
        omega
      · rw [← herr]
        congr 1
        omega
      · rcases hstop with h | h
        · exact Or.inl h
        · exact Or.inr (by omega)

lemma writeRetryGo_ok (code_at : Nat → Option Nat) (nr_retries : Nat) (dat : List Nat) :
    ∀ (n retry fuel : Nat), (∀ m, m < n → code_at (retry + m) = some Ack.FluxUnderflow) →
      retry + n ≤ nr_retries → n < fuel → code_at (retry + n) = none →
      writeRetryGo code_at nr_retries dat retry fuel =
        (Except.ok (), List.replicate (n + 1) dat) := by
  intro n
  induction n with
  | zero =>
    intro retry fuel _ _ hfuel hok
    match fuel, hfuel with
    | fuel + 1, _ =>
      rw [writeRetryGo]
      simp only [Nat.add_zero] at hok
      rw [hok]
      rfl
  | succ j ih =>
    intro retry fuel hall hle hfuel hok
    match fuel, hfuel with
    | fuel + 1, hfuel =>
      have h0 : code_at retry = some Ack.FluxUnderflow := by
        have h := hall 0 (by omega)
        simpa using h
      have hlt : retry < nr_retries := by omega
      rw [writeRetryGo, h0]
      simp only [hlt, and_true, if_true]
      have hrec := ih (retry + 1) fuel (fun m hm => by
          have h := hall (m + 1) (by omega)
          rw [← h]
          congr 1
          omega)
        (by omega) (by omega) (by rw [← hok]; congr 1; omega)
      rw [hrec]
      rfl

lemma writeRetryGo_err (code_at : Nat → Option Nat) (nr_retries : Nat) (dat : List Nat)
    (c : Nat) :
    ∀ (n retry fuel : Nat), (∀ m, m < n → code_at (retry + m) = some Ack.FluxUnderflow) →
      retry + n ≤ nr_retries → n < fuel → code_at (retry + n) = some c →
      (c ≠ Ack.FluxUnderflow ∨ retry + n = nr_retries) →
      writeRetryGo code_at nr_retries dat retry fuel =
        (Except.error c, List.replicate (n + 1) dat) := by
  intro n
  induction n with
  | zero =>
    intro retry fuel _ _ hfuel herr hstop
    match fuel, hfuel with
    | fuel + 1, _ =>
      rw [writeRetryGo]
      simp only [Nat.add_zero] at herr hstop
      rw [herr]
      have hcond : ¬ (c = Ack.FluxUnderflow ∧ retry < nr_retries) := by
        rcases hstop with h | h
        · exact fun hc => h hc.1
        · exact fun hc => by omega
      simp only [hcond, if_false, if_neg hcond]
      rfl
  | succ j ih =>
    intro retry fuel hall hle hfuel herr hstop
    match fuel, hfuel with
    | fuel + 1, hfuel =>
      have h0 : code_at retry = some Ack.FluxUnderflow := by
        have h := hall 0 (by omega)
        simpa using h
      have hlt : retry < nr_retries := by omega
      rw [writeRetryGo, h0]
      simp only [hlt, and_true, if_true]
      have hrec := ih (retry + 1) fuel (fun m hm => by
          have h := hall (m + 1) (by omega)
          rw [← h]
          congr 1
          omega)
        (by omega) (by omega) (by rw [← herr]; congr 1; omega)
        (by
          rcases hstop with h | h
          · exact Or.inl h
          · exact Or.inr (by omega))
      rw [hrec]
      rfl

/-- Claim C3. Retry discipline of the read and write pipelines.
`read_track_retry` re-runs the `ReadFlux`/`GetFluxStatus` exchange
exactly while the raised code is `FluxOverflow` (4) and fewer than
`nr_retries` retries have occurred; `write_track` re-runs its attempt
exactly while the code is `FluxUnderflow` (5) under the same bound, and
every attempt streams the same `_encode_flux flux_list` payload, encoded
once before the loop; any other code — or a transient code once the
bound is reached — propagates on first occurrence. -/
theorem retry_policy_spec :
    (∀ (att : Nat → Except Nat (List Nat)) (nr_retries n : Nat) (d : List Nat),
        (∀ m, m < n → att m = Except.error Ack.FluxOverflow) → n ≤ nr_retries →
        att n = Except.ok d →
        read_track_retry att nr_retries = Except.ok d) ∧
    (∀ (att : Nat → Except Nat (List Nat)) (nr_retries n c : Nat),
        (∀ m, m < n → att m = Except.error Ack.FluxOverflow) → n ≤ nr_retries →
        att n = Except.error c → (c ≠ Ack.FluxOverflow ∨ n = nr_retries) →
        read_track_retry att nr_retries = Except.error c) ∧
    (∀ (code_at : Nat → Option Nat) (flux_list : List Nat) (nr_retries n : Nat),
        (∀ m, m < n → code_at m = some Ack.FluxUnderflow) → n ≤ nr_retries →
        code_at n = none →
        write_track code_at flux_list nr_retries =
          (Except.ok (), List.replicate (n + 1) (_encode_flux flux_list))) ∧
    (∀ (code_at : Nat → Option Nat) (flux_list : List Nat) (nr_retries n c : Nat),
        (∀ m, m < n → code_at m = some Ack.FluxUnderflow) → n ≤ nr_retries →
        code_at n = some c → (c ≠ Ack.FluxUnderflow ∨ n = nr_retries) →
        write_track code_at flux_list nr_retries =
          (Except.error c, List.replicate (n + 1) (_encode_flux flux_list))) := by
  refine ⟨?_, ?_, ?_, ?_⟩
  · intro att nr_retries n d hall hle hok
    exact readRetryGo_ok att nr_retries d n 0 (nr_retries + 1)
      (fun m hm => by simpa using hall m hm) (by omega) (by omega) (by simpa using hok)
  · intro att nr_retries n c hall hle herr hstop
    exact readRetryGo_err att nr_retries c n 0 (nr_retries + 1)
      (fun m hm => by simpa using hall m hm) (by omega) (by omega) (by simpa using herr)
      (by simpa using hstop)
  · intro code_at flux_list nr_retries n hall hle hok
    exact writeRetryGo_ok code_at nr_retries (_encode_flux flux_list) n 0 (nr_retries + 1)
      (fun m hm => by simpa using hall m hm) (by omega) (by omega) (by simpa using hok)
  · intro code_at flux_list nr_retries n c hall hle herr hstop
    exact writeRetryGo_err code_at nr_retries (_encode_flux flux_list) c n 0 (nr_retries + 1)
      (fun m hm => by simpa using hall m hm) (by omega) (by omega) (by simpa using herr)
      (by simpa using hstop)

theorem retry_policy_spec_witness :
    read_track_retry
        (fun m => if m = 0 then Except.error 4 else Except.ok [100, 0]) 5 =
      Except.ok [100, 0] ∧
    read_track_retry (fun _ => Except.error 2) 5 = Except.error 2 ∧
    write_track (fun m => if m < 2 then some 5 else none) [300] 5 =
      (Except.ok (), List.replicate 3 (_encode_flux [300])) ∧
    write_track (fun _ => some 5) [300] 0 =
      (Except.error 5, List.replicate 1 (_encode_flux [300])) := by
  refine ⟨retry_policy_spec.1 _ 5 1 [100, 0] (fun m hm => ?_) (by omega) (by simp),
    retry_policy_spec.2.1 _ 5 0 2 (fun m hm => by omega) (by omega) (by simp)
      (by simp [Ack.FluxOverflow]),
    retry_policy_spec.2.2.1 _ [300] 5 2 (fun m hm => ?_) (by omega) (by simp),
    retry_policy_spec.2.2.2 _ [300] 0 0 5 (fun m hm => by omega) (by omega) (by simp)
      (Or.inr rfl)⟩
  · have hm0 : m = 0 := by omega
    simp [hm0, Ack.FluxOverflow]
  · have hm2 : m < 2 := hm
    simp [hm2, Ack.FluxUnderflow]

/-- Claim C5. After writing a frame, exactly two acknowledgement bytes
are consumed; an echo byte differing from the command byte is a fatal
protocol violation; a zero second byte is success; a non-zero second
byte raises a `CmdError` carrying the command id and the code; and the
rendered message for every code above 6 is "Unknown Error (n)". -/
theorem send_cmd_ack_spec :
    (∀ (cmd : List Nat) (c r : Nat) (rest : List Nat), c = cmd.headI → r = 0 →
        _send_cmd cmd (c :: r :: rest) = (SendResult.ok, rest)) ∧
    (∀ (cmd : List Nat) (c r : Nat) (rest : List Nat), c ≠ cmd.headI →
        _send_cmd cmd (c :: r :: rest) = (SendResult.protocolError, rest)) ∧
    (∀ (cmd : List Nat) (c r : Nat) (rest : List Nat), c = cmd.headI → r ≠ 0 →
        _send_cmd cmd (c :: r :: rest) = (SendResult.cmdError c r, rest)) ∧
    (∀ n : Nat, Ack.Max < n →
        CmdError.render n = "Unknown Error (" ++ Nat.repr n ++ ")") := by
  refine ⟨?_, ?_, ?_, ?_⟩
  · intro cmd c r rest hc hr
    simp [_send_cmd, hc, hr]
  · intro cmd c r rest hc
    simp [_send_cmd, hc]
  · intro cmd c r rest hc hr
    simp [_send_cmd, hc, hr]
  · intro n hn
    have h : ¬ n ≤ Ack.Max := by omega
    simp [CmdError.render, h]

theorem send_cmd_ack_spec_witness :
    _send_cmd [6, 3, 2] [6, 0, 9, 9] = (SendResult.ok, [9, 9]) ∧
    _send_cmd [6, 3, 2] [7, 0] = (SendResult.protocolError, []) ∧
    _send_cmd [6, 3, 2] [6, 4] = (SendResult.cmdError 6 4, []) ∧
    CmdError.render 9 = "Unknown Error (" ++ Nat.repr 9 ++ ")" :=
  ⟨send_cmd_ack_spec.1 [6, 3, 2] 6 0 [9, 9] (by decide) rfl,
   send_cmd_ack_spec.2.1 [6, 3, 2] 7 0 [] (by decide),
   send_cmd_ack_spec.2.2.1 [6, 3, 2] 6 4 [] (by decide) (by decide),
   send_cmd_ack_spec.2.2.2 9 (by decide)⟩

/-- Claim C6. When the `GetInfo` response reports `max_index = 0`,
session construction sets `update_mode`, derives `update_jumpered` from
the low bit of `sample_freq`, removes `max_index` and `sample_freq`, and
stops without issuing `GetParams`. -/
theorem unit_init_update_mode_spec :
    ∀ (host_major host_minor major minor max_index max_cmd sample_freq : Nat)
      (delay_resp : Nat × Nat × Nat × Nat × Nat),
      max_index = 0 →
      (unit_init host_major host_minor major minor max_index max_cmd sample_freq
          delay_resp).1.update_mode = true ∧
      (unit_init host_major host_minor major minor max_index max_cmd sample_freq
          delay_resp).1.update_jumpered = some (sample_freq &&& 1) ∧
      (unit_init host_major host_minor major minor max_index max_cmd sample_freq
          delay_resp).1.max_index = none ∧
      (unit_init host_major host_minor major minor max_index max_cmd sample_freq
          delay_resp).1.sample_freq = none ∧
      (unit_init host_major host_minor major minor max_index max_cmd sample_freq
          delay_resp).2 = [Cmd.GetInfo] ∧
      Cmd.GetParams ∉ (unit_init host_major host_minor major minor max_index max_cmd
          sample_freq delay_resp).2 := by
  intro host_major host_minor major minor max_index max_cmd sample_freq delay_resp h
  subst h
  refine ⟨rfl, rfl, rfl, rfl, rfl, ?_⟩
  simp [unit_init, Cmd.GetInfo, Cmd.GetParams]

theorem unit_init_update_mode_spec_witness :
    (unit_init 0 22 0 21 0 9 73 (1, 2, 3, 4, 5)).1.update_mode = true ∧
    (unit_init 0 22 0 21 0 9 73 (1, 2, 3, 4, 5)).1.update_jumpered = some (73 &&& 1) ∧
    (unit_init 0 22 0 21 0 9 73 (1, 2, 3, 4, 5)).1.max_index = none ∧
    (unit_init 0 22 0 21 0 9 73 (1, 2, 3, 4, 5)).1.sample_freq = none ∧
    (unit_init 0 22 0 21 0 9 73 (1, 2, 3, 4, 5)).2 = [Cmd.GetInfo] ∧
    Cmd.GetParams ∉ (unit_init 0 22 0 21 0 9 73 (1, 2, 3, 4, 5)).2 :=
  unit_init_update_mode_spec 0 22 0 21 0 9 73 (1, 2, 3, 4, 5) rfl

/-- Claim C9. `with_drive_selected` asserts select then motor first, and
on every exit path — normal completion, a propagated error, or keyboard
cancellation — its final two actions are motor off then select off;
only the propagated-error path re-raises. -/
theorem with_drive_selected_release : ∀ fnExc : Option Exc,
    (with_drive_selected fnExc).1.take 2 = [DriveAction.select true, DriveAction.motor true] ∧
    (with_drive_selected fnExc).1.drop ((with_drive_selected fnExc).1.length - 2) =
      [DriveAction.motor false, DriveAction.select false] ∧
    (with_drive_selected fnExc).2 =
      (if fnExc = some Exc.cmdError then some Exc.cmdError else none) := by
  intro fnExc
  rcases fnExc with _ | e
  · refine ⟨by decide, by decide, by decide⟩
  · cases e
    · refine ⟨by decide, by decide, by decide⟩
    · refine ⟨by decide, by decide, by decide⟩

theorem with_drive_selected_release_witness :
    (with_drive_selected (some Exc.interrupt)).1.take 2 =
      [DriveAction.select true, DriveAction.motor true] ∧
    (with_drive_selected (some Exc.interrupt)).1.drop
        ((with_drive_selected (some Exc.interrupt)).1.length - 2) =
      [DriveAction.motor false, DriveAction.select false] ∧
    (with_drive_selected (some Exc.interrupt)).2 =
      (if (some Exc.interrupt : Option Exc) = some Exc.cmdError then some Exc.cmdError
       else none) :=
  with_drive_selected_release (some Exc.interrupt)
